import Mathlib

/-!
Verification of the itinerary data model and persistence engine of the
family-trip planner (`src/app/page.tsx`).

The page is a React client component; all of its itinerary logic is pure
state transformation.  We embed it shallowly:

* the TypeScript record types `ItineraryItem`, `DayPlan`, `Trip` become
  Lean structures;
* `sortByTime` (an ES2019 `Array.prototype.sort`, which is guaranteed
  stable, run with the comparator `ta.localeCompare(tb)` on the trimmed
  time strings, blank time replaced by `"99:99"`) is embedded as the
  stable insertion sort `List.insertionSort` by the same key;
  the argumentless `localeCompare` compares in the default ECMA-402 /
  CLDR collation, modelled as lexicographic comparison where characters
  are ordered primarily by collation class — whitespace, then punctuation
  such as `:`, then digits, then letters — and by code point within a
  class;
* each event handler (`addItem`, `deleteItem`, `moveItem`, `addDay`,
  `updateTrip`, `resetAll`) becomes a function on an explicit
  `AppState`; the ambient `Date.now()` and `uid()` calls become explicit
  `now` / fresh-id arguments;
* `localStorage` plus `JSON.stringify` / `JSON.parse` become a stored
  `Json` value: `JSON.parse ∘ JSON.stringify` is the identity on the
  serialisable values this app stores, so the text layer is elided and a
  stored value is either absent, present-but-unparseable (`JSON.parse`
  throws) or a parsed `Json` tree.  The load path validates nothing
  beyond the truthiness of `parsed?.days?.length`: a parsed tree passing
  that guard is adopted verbatim by `setTrip`, and when it is not a
  structurally valid trip the resulting component state lies outside the
  `Trip` type — the model records this as `LoadResult.untypedTrip`.  The
  structural decoder `decodeTrip` realises the dynamic cast
  `JSON.parse(raw) as Trip` exactly where a typed state results.
-/

namespace FamilyTrip

/-- The `ItineraryItem` record of `page.tsx` (id, time `"09:30"`, title,
location, note). -/
structure ItineraryItem where
  id : String
  time : String
  title : String
  location : String
  note : String
deriving DecidableEq, Repr

/-- The `DayPlan` record of `page.tsx` (id, label `"Day 1"`, free-text date,
owned item list). -/
structure DayPlan where
  id : String
  label : String
  dateText : String
  items : List ItineraryItem
deriving DecidableEq, Repr

/-- The `Trip` record of `page.tsx` (id, name, free-text date range, owned
day list, last-modified timestamp `Date.now()`, modelled as `Nat`). -/
structure Trip where
  id : String
  name : String
  dateRange : String
  days : List DayPlan
  updatedAt : Nat
deriving DecidableEq, Repr

/-- The relevant React state of the `Page` component: the trip plus the id
of the day currently shown. -/
structure AppState where
  trip : Trip
  activeDayId : String
deriving DecidableEq, Repr

/-- Drop the leading whitespace characters of a character list. -/
def dropLeadingWs : List Char → List Char
  | [] => []
  | c :: cs => if c.isWhitespace then dropLeadingWs cs else c :: cs

/-- JavaScript `String.prototype.trim` on the character list of a string:
strip whitespace from both ends.  Structural recursion, so it evaluates
definitionally (Lean's own `String.trim` does not kernel-reduce). -/
def jsTrimChars (cs : List Char) : List Char :=
  ((dropLeadingWs ((dropLeadingWs cs).reverse)).reverse)

/-- JavaScript `String.prototype.trim`. -/
def jsTrim (s : String) : String :=
  ⟨jsTrimChars s.data⟩

/-- Primary collation class of a character under the default ECMA-402 /
CLDR root collation that an argumentless `localeCompare` uses: whitespace
collates first, then punctuation and symbols (such as `:`), then digits,
then letters and everything beyond ASCII. -/
def collClass (c : Char) : Nat :=
  if c.isDigit then 2
  else if c.isWhitespace then 0
  else if c.val < 128 ∧ ¬c.isAlpha then 1
  else 3

/-- Character order of the default collation: primary weight by collation
class, code point within a class (exact for the digits, and the natural
order for the ASCII letters, that this development compares). -/
def collLt (a b : Char) : Bool :=
  if collClass a < collClass b then true
  else if collClass b < collClass a then false
  else decide (a < b)

/-- Strict lexicographic order on character lists over the collation
character order: the model of `ta.localeCompare(tb) < 0`. -/
def lexLt : List Char → List Char → Bool
  | [], [] => false
  | [], _ :: _ => true
  | _ :: _, [] => false
  | a :: as, b :: bs =>
    if collLt a b then true else if collLt b a then false else lexLt as bs

/-- The sort key of `sortByTime`: `a.time?.trim() || "99:99"` — the trimmed
time, the blank time replaced by the sentinel `"99:99"`. -/
def timeKey (it : ItineraryItem) : List Char :=
  let t := jsTrimChars it.time.data
  if t = [] then ['9', '9', ':', '9', '9'] else t

/-- The comparator of `sortByTime`, as the non-strict order the sorted
output satisfies: `ta.localeCompare(tb) <= 0`, i.e. not `tb < ta`. -/
def timeLE (a b : ItineraryItem) : Prop :=
  lexLt (timeKey b) (timeKey a) = false

instance : DecidableRel timeLE := fun a b =>
  inferInstanceAs (Decidable (lexLt (timeKey b) (timeKey a) = false))

/-- The function `sortByTime` of `page.tsx`: `[...items].sort(comparator)`.
`Array.prototype.sort` is a stable sort, and a stable sort by a total
preorder is uniquely determined, so it is embedded as the stable
`List.insertionSort` by the same comparator. -/
def sortByTime (items : List ItineraryItem) : List ItineraryItem :=
  List.insertionSort timeLE items

/-- Swap the entries at positions `i` and `j`, the destructuring assignment
`[swapped[idx], swapped[j]] = [swapped[j], swapped[idx]]` of `moveItem`
(both indices are in range at the call site). -/
def listSwap {α : Type} (l : List α) (i j : Nat) : List α :=
  match l[i]?, l[j]? with
  | some a, some b => (l.set i b).set j a
  | _, _ => l

/-- The direction argument of `moveItem`: the string literals `"up"` and
`"down"`. -/
inductive Dir where
  | up
  | down
deriving DecidableEq, Repr

/-- The updater `moveItem` passes to `updateDay`: sort the day's items by
time, locate `itemId` in that ordering, swap it with its neighbour in
direction `dir` (`j = idx ± 1`), and write the swapped array back verbatim,
without re-sorting.  An unknown id (`idx < 0`) or an out-of-range neighbour
(`j < 0 || j >= sorted.length`) returns the day unchanged. -/
def moveItemDay (itemId : String) (dir : Dir) (d : DayPlan) : DayPlan :=
  let sorted := sortByTime d.items
  match sorted.findIdx? (fun x => x.id == itemId) with
  | none => d
  | some idx =>
    let j : Int :=
      match dir with
      | .up => (idx : Int) - 1
      | .down => (idx : Int) + 1
    if j < 0 ∨ (sorted.length : Int) ≤ j then d
    else { d with items := listSwap sorted idx j.toNat }

/-- The updater `deleteItem` passes to `updateDay`:
`items.filter(x => x.id !== itemId)`. -/
def deleteItemDay (itemId : String) (d : DayPlan) : DayPlan :=
  { d with items := d.items.filter (fun x => x.id != itemId) }

/-- The module-level `defaultTrip` constant.  The `uid(..)` calls run once at
module initialisation and yield opaque session-random strings; they are
modelled as fixed distinct placeholder ids, and the initial `Date.now()`
as `0`. -/
def defaultTrip : Trip :=
  { id := "trip_default"
    name := "我的行程"
    dateRange := "選擇日期區間（之後可做成日曆）"
    updatedAt := 0
    days :=
      [ { id := "day_1", label := "Day 1", dateText := "2026/02/04"
          items :=
            [ { id := "item_a1", time := "09:30", title := "早餐"
                location := "附近早餐店", note := "先墊胃，走行程比較有力" }
            , { id := "item_a2", time := "11:00", title := "景點"
                location := "台北 101", note := "上觀景台 / 拍照" } ] }
      , { id := "day_2", label := "Day 2", dateText := "2026/02/05"
          items :=
            [ { id := "item_b1", time := "10:00", title := "咖啡"
                location := "咖啡廳", note := "" } ] }
      , { id := "day_3", label := "Day 3", dateText := "2026/02/06"
          items := [] } ] }

/-- The initial React state: `useState(defaultTrip)` and
`useState(defaultTrip.days[0]?.id ?? "")`. -/
def defaultState : AppState :=
  { trip := defaultTrip
    activeDayId := ((defaultTrip.days.head?).map DayPlan.id).getD "" }

/-- The `activeDay` memo:
`trip.days.find(d => d.id === activeDayId) ?? trip.days[0]`; `none` models
the JS value `undefined` when the day list is empty. -/
def activeDay (st : AppState) : Option DayPlan :=
  match st.trip.days.find? (fun d => d.id == st.activeDayId) with
  | some d => some d
  | none => st.trip.days.head?

/-- The `activeItems` memo: `sortByTime(activeDay?.items ?? [])` — the list
the page actually renders for the active day. -/
def activeItems (st : AppState) : List ItineraryItem :=
  sortByTime (((activeDay st).map DayPlan.items).getD [])

/-- The `updateDay` helper: refresh `updatedAt` to `Date.now()` (the `now`
argument) and apply `updater` to the day with the given id. -/
def updateDay (dayId : String) (updater : DayPlan → DayPlan) (now : Nat)
    (st : AppState) : AppState :=
  { st with
    trip := { st.trip with
      updatedAt := now
      days := st.trip.days.map (fun d => if d.id == dayId then updater d else d) } }

/-- The call `updateTrip({ name })` made by the trip-name input:
`{...t, ...patch, updatedAt: Date.now()}`. -/
def renameTrip (name : String) (now : Nat) (st : AppState) : AppState :=
  { st with trip := { st.trip with name := name, updatedAt := now } }

/-- The call `updateTrip({ dateRange })` made by the date-range input. -/
def setDateRange (dateRange : String) (now : Nat) (st : AppState) : AppState :=
  { st with trip := { st.trip with dateRange := dateRange, updatedAt := now } }

/-- The add-item modal fields `fTime`, `fTitle`, `fLocation`, `fNote`. -/
structure Form where
  fTime : String
  fTitle : String
  fLocation : String
  fNote : String
deriving DecidableEq, Repr

/-- The `addItem` handler.  `newId` stands for the fresh `uid("item")` and
`now` for the `Date.now()` inside `updateDay`.  An empty trimmed title
returns unchanged (`if (!title) return`).  With an empty day list,
`activeDay` is `undefined` and `activeDay.id` throws a `TypeError`,
modelled as `none`; every `some` result is a normal return. -/
def addItem (newId : String) (now : Nat) (f : Form) (st : AppState) :
    Option AppState :=
  let title := jsTrim f.fTitle
  if title = "" then some st
  else
    match activeDay st with
    | none => none
    | some ad =>
      let newItem : ItineraryItem :=
        { id := newId, time := jsTrim f.fTime, title := title
          location := jsTrim f.fLocation, note := jsTrim f.fNote }
      some (updateDay ad.id (fun d => { d with items := d.items ++ [newItem] }) now st)

/-- The `deleteItem` handler: `updateDay(activeDay.id, filter updater)`. -/
def deleteItem (itemId : String) (now : Nat) (st : AppState) : Option AppState :=
  match activeDay st with
  | none => none
  | some ad => some (updateDay ad.id (deleteItemDay itemId) now st)

/-- The `moveItem` handler: `updateDay(activeDay.id, swap updater)`. -/
def moveItem (itemId : String) (dir : Dir) (now : Nat) (st : AppState) :
    Option AppState :=
  match activeDay st with
  | none => none
  | some ad => some (updateDay ad.id (moveItemDay itemId dir) now st)

/-- The `addDay` handler: append a fresh day labelled with the next ordinal
and make it active.  `newDayId` stands for `uid("day")`. -/
def addDay (newDayId : String) (now : Nat) (st : AppState) : AppState :=
  let nextIndex := st.trip.days.length + 1
  let newDay : DayPlan :=
    { id := newDayId, label := s!"Day {nextIndex}"
      dateText := "（可填日期）", items := [] }
  { trip := { st.trip with updatedAt := now, days := st.trip.days ++ [newDay] }
    activeDayId := newDayId }

/-- The `resetAll` handler: reseed from `defaultTrip` with a fresh trip id
and a fresh `updatedAt`, and select the first day. -/
def resetAll (newTripId : String) (now : Nat) : AppState :=
  let fresh : Trip := { defaultTrip with id := newTripId, updatedAt := now }
  { trip := fresh
    activeDayId := ((fresh.days.head?).map DayPlan.id).getD "" }

/-- A JSON value as produced by `JSON.parse`.  The `Date.now()` timestamps
are the only numbers this application stores, so numbers are modelled as
`Nat`. -/
inductive Json where
  | null
  | bool (b : Bool)
  | num (n : Nat)
  | str (s : String)
  | arr (elems : List Json)
  | obj (fields : List (String × Json))
deriving Repr

/-- The object `JSON.stringify` writes for an `ItineraryItem`, fields in
declaration order. -/
def encodeItem (it : ItineraryItem) : Json :=
  .obj [("id", .str it.id), ("time", .str it.time), ("title", .str it.title),
        ("location", .str it.location), ("note", .str it.note)]

/-- The object `JSON.stringify` writes for a `DayPlan`. -/
def encodeDay (d : DayPlan) : Json :=
  .obj [("id", .str d.id), ("label", .str d.label),
        ("dateText", .str d.dateText),
        ("items", .arr (d.items.map encodeItem))]

/-- The object `JSON.stringify` writes for a `Trip`. -/
def encodeTrip (t : Trip) : Json :=
  .obj [("id", .str t.id), ("name", .str t.name),
        ("dateRange", .str t.dateRange), ("updatedAt", .num t.updatedAt),
        ("days", .arr (t.days.map encodeDay))]

/-- Property access `j[key]` on a parsed JSON value: defined only on
objects that carry the field. -/
def getField (j : Json) (key : String) : Option Json :=
  match j with
  | .obj fields => fields.lookup key
  | _ => none

/-- Read a JSON value as a string. -/
def asStr : Json → Option String
  | .str s => some s
  | _ => none

/-- Read a JSON value as a number. -/
def asNum : Json → Option Nat
  | .num n => some n
  | _ => none

/-- Read a JSON value as an array. -/
def asArr : Json → Option (List Json)
  | .arr xs => some xs
  | _ => none

/-- Decode every element of a JSON array, failing if any element fails. -/
def decodeList {α : Type} (dec : Json → Option α) : List Json → Option (List α)
  | [] => some []
  | j :: js => do
    let a ← dec j
    let as ← decodeList dec js
    pure (a :: as)

/-- Structural realisation of the dynamic cast `JSON.parse(raw) as
ItineraryItem`. -/
def decodeItem (j : Json) : Option ItineraryItem := do
  let id ← getField j "id" >>= asStr
  let time ← getField j "time" >>= asStr
  let title ← getField j "title" >>= asStr
  let location ← getField j "location" >>= asStr
  let note ← getField j "note" >>= asStr
  pure { id := id, time := time, title := title, location := location, note := note }

/-- Structural realisation of the dynamic cast to `DayPlan`. -/
def decodeDay (j : Json) : Option DayPlan := do
  let id ← getField j "id" >>= asStr
  let label ← getField j "label" >>= asStr
  let dateText ← getField j "dateText" >>= asStr
  let itemsJson ← getField j "items" >>= asArr
  let items ← decodeList decodeItem itemsJson
  pure { id := id, label := label, dateText := dateText, items := items }

/-- Structural realisation of the dynamic cast `JSON.parse(raw) as Trip`. -/
def decodeTrip (j : Json) : Option Trip := do
  let id ← getField j "id" >>= asStr
  let name ← getField j "name" >>= asStr
  let dateRange ← getField j "dateRange" >>= asStr
  let updatedAt ← getField j "updatedAt" >>= asNum
  let daysJson ← getField j "days" >>= asArr
  let days ← decodeList decodeDay daysJson
  pure { id := id, name := name, dateRange := dateRange, days := days
         updatedAt := updatedAt }

/-- The raw value under the storage key `trip_planner_v1` as seen through
`localStorage.getItem` and `JSON.parse`: absent (`getItem` returned
`null`), present but not valid JSON text (`JSON.parse` throws), or a
parsed JSON tree.  `JSON.parse(JSON.stringify(v))` is `v` for every value
this application stores, so the intermediate text is elided. -/
inductive RawStored where
  | absent
  | unparseable
  | json (j : Json)

/-- The save effect: `localStorage.setItem(STORAGE_KEY, JSON.stringify(trip))`. -/
def saveTrip (t : Trip) : RawStored :=
  .json (encodeTrip t)

/-- JavaScript truthiness of a parsed JSON value: `null`, `false`, `0`
and the empty string are falsy, everything else is truthy. -/
def jsTruthy : Json → Bool
  | .null => false
  | .bool b => b
  | .num n => decide (n ≠ 0)
  | .str s => decide (s.data ≠ [])
  | .arr _ => true
  | .obj _ => true

/-- The guard `parsed?.days?.length` as a truthiness test on the parsed
JSON tree: truthy exactly when the `days` property exists and its
`length` is truthy — a non-zero length for an array or a string (string
length 0 coincides for code units and code points), or a truthy `length`
property of a plain object.  For every other shape (missing field,
non-object `parsed`, number, boolean, null) `parsed?.days?.length` is
`undefined` or `0`, both falsy.  This guard is the only validation the
source performs before adopting the parsed value. -/
def daysLengthTruthy (j : Json) : Bool :=
  match getField j "days" with
  | some (.arr xs) => decide (xs.length ≠ 0)
  | some (.str s) => decide (s.data.length ≠ 0)
  | some (.obj fields) =>
    match fields.lookup "length" with
    | some v => jsTruthy v
    | none => false
  | _ => false

/-- Result of the load effect.  Once the `parsed?.days?.length` guard is
truthy the source adopts whatever `JSON.parse` produced; when that value
is not a structurally valid trip, `setTrip` stores a value outside the
`Trip` type (the page's later field accesses misbehave on it), which the
typed model records as `untypedTrip` rather than inventing a `Trip` for
it. -/
inductive LoadResult where
  | state (st : AppState)
  | untypedTrip (j : Json)
deriving Repr

/-- The load effect: `if (!raw) return;`, then `JSON.parse` inside
`try { .. } catch` (a parse throw is caught and ignored), then
`if (parsed?.days?.length) { setTrip(parsed); setActiveDayId(parsed.days[0].id); }`.
The only validation is the `parsed?.days?.length` truthiness guard;
adopting a structurally valid trip yields the typed state, adopting
anything else is recorded as `untypedTrip`. -/
def loadStep (raw : RawStored) (st : AppState) : LoadResult :=
  match raw with
  | .absent => .state st
  | .unparseable => .state st
  | .json j =>
    if daysLengthTruthy j then
      match decodeTrip j with
      | some parsed =>
        .state { trip := parsed
                 activeDayId := ((parsed.days.head?).map DayPlan.id).getD "" }
      | none => .untypedTrip j
    else .state st

/-- The document `exportJson` serialises:
`JSON.stringify(trip, null, 2)` — the current trip itself, the `2` only
affecting pretty-printing whitespace. -/
def exportDoc (t : Trip) : Json :=
  encodeTrip t

/-- Zero-padded well-formed `HH:MM`: two digits below `24`, a colon, two
digits below `60` (spec §4.3, the shape the time input produces). -/
def wellFormedHHMM : List Char → Bool
  | [h1, h2, c, m1, m2] =>
    c == ':' && h1.isDigit && h2.isDigit && m1.isDigit && m2.isDigit &&
      (decide (h1 < '2') || (h1 == '2' && decide (h2 ≤ '3'))) && decide (m1 ≤ '5')
  | _ => false

/-- Every item of the collection has a time that is either a well-formed
`HH:MM` or blank after trimming (the mix spec §8.1 quantifies over). -/
def mixedWellFormed (l : List ItineraryItem) : Prop :=
  ∀ it ∈ l, wellFormedHHMM (jsTrimChars it.time.data) = true ∨
    jsTrimChars it.time.data = []

/-- Every blank-time entry of `l` is placed strictly after every
present-time entry (the placement property claimed of the ordering
engine's output). -/
def blankAfterTimed (l : List ItineraryItem) : Prop :=
  ∀ i j : Fin l.length,
    jsTrimChars ((l.get i).time.data) ≠ [] →
    jsTrimChars ((l.get j).time.data) = [] →
    (i : Nat) < (j : Nat)

instance (l : List ItineraryItem) : Decidable (mixedWellFormed l) := by
  unfold mixedWellFormed
  infer_instance

instance (l : List ItineraryItem) : Decidable (blankAfterTimed l) := by
  unfold blankAfterTimed
  infer_instance

/-- Test fixture: an item with an early well-formed time. -/
def itEarly : ItineraryItem :=
  { id := "i1", time := "09:30", title := "breakfast", location := "", note := "" }

/-- Test fixture: an item with a later well-formed time. -/
def itLate : ItineraryItem :=
  { id := "i2", time := "11:00", title := "tower", location := "", note := "" }

/-- Test fixture: an item whose time is blank after trimming. -/
def itBlankTime : ItineraryItem :=
  { id := "b", time := "   ", title := "sometime", location := "", note := "" }

/-- Test fixture: an item with a present but letter-bearing time; under
the default collation letters collate after digits, so `"noon"` compares
above the sentinel `"99:99"`. -/
def itWordTime : ItineraryItem :=
  { id := "n", time := "noon", title := "word", location := "", note := "" }

/-- Test fixture: a day holding the two timed items, early one first. -/
def dayFixture : DayPlan :=
  { id := "d1", label := "Day 1", dateText := "2026/02/04"
    items := [itEarly, itLate] }

/-- Test fixture: a state whose active day is `dayFixture`. -/
def stFixture : AppState :=
  { trip := { id := "t1", name := "trip", dateRange := ""
              days := [dayFixture], updatedAt := 0 }
    activeDayId := "d1" }

/-- Test fixture: a valid trip whose day list is empty. -/
def tripNoDays : Trip :=
  { id := "t_empty", name := "nothing planned", dateRange := ""
    days := [], updatedAt := 5 }

/-- Test fixture: parsed JSON junk that passes the `days`-length guard but
is not valid structured trip data. -/
def junkDays : Json :=
  .obj [("days", .arr [.num 5])]

/-- Test fixture: a filled add-item form with a non-blank title. -/
def formAdd : Form :=
  { fTime := "12:00", fTitle := "Lunch", fLocation := "", fNote := "" }

/-- Test fixture: a blank-title add-item form. -/
def formBlankTitle : Form :=
  { fTime := "09:00", fTitle := "   ", fLocation := "x", fNote := "y" }

/-- Test fixture: the state produced by adding `formAdd` to `stFixture` at
time `5`. -/
def stAdded : AppState :=
  (addItem "i9" 5 formAdd stFixture).getD stFixture

/-- Test fixture: the state produced by deleting item `"i1"` from
`stFixture` at time `5`. -/
def stDeleted : AppState :=
  (deleteItem "i1" 5 stFixture).getD stFixture

/-- Test fixture: the state produced by moving item `"i2"` up in
`stFixture` at time `5`. -/
def stMoved : AppState :=
  (moveItem "i2" Dir.up 5 stFixture).getD stFixture

/-- The character order of the collation is irreflexive. -/
theorem collLt_irrefl (a : Char) : collLt a a = false := by
  simp [collLt]

/-- The character order of the collation is asymmetric. -/
theorem collLt_asymm {a b : Char} (h : collLt a b = true) : collLt b a = false := by
  unfold collLt at h ⊢
  rcases Nat.lt_trichotomy (collClass a) (collClass b) with hc | hc | hc
  · simp [hc, Nat.lt_asymm hc]
  · rw [hc] at h ⊢
    simp only [lt_irrefl, if_false] at h ⊢
    rw [decide_eq_true_eq] at h
    simp [lt_asymm h]
  · simp [hc, Nat.lt_asymm hc] at h

/-- The character order of the collation is transitive. -/
theorem collLt_trans {a b c : Char} (h₁ : collLt a b = true)
    (h₂ : collLt b c = true) : collLt a c = true := by
  unfold collLt at h₁ h₂ ⊢
  rcases Nat.lt_trichotomy (collClass a) (collClass b) with hab | hab | hab
  · rcases Nat.lt_trichotomy (collClass b) (collClass c) with hbc | hbc | hbc
    · simp [Nat.lt_trans hab hbc]
    · rw [hbc] at hab
      simp [hab]
    · simp [hbc, Nat.lt_asymm hbc] at h₂
  · rw [hab] at h₁ ⊢
    simp only [lt_irrefl, if_false] at h₁
    rw [decide_eq_true_eq] at h₁
    rcases Nat.lt_trichotomy (collClass b) (collClass c) with hbc | hbc | hbc
    · simp [hbc]
    · rw [hbc] at h₂ ⊢
      simp only [lt_irrefl, if_false] at h₂ ⊢
      rw [decide_eq_true_eq] at h₂
      simp [lt_trans h₁ h₂]
    · simp [hbc, Nat.lt_asymm hbc] at h₂
  · simp [hab, Nat.lt_asymm hab] at h₁

/-- Two characters that the collation orders neither way are equal (the
order refines the code point within a class). -/
theorem eq_of_collLt_false {a b : Char} (h₁ : collLt a b = false)
    (h₂ : collLt b a = false) : a = b := by
  unfold collLt at h₁ h₂
  rcases Nat.lt_trichotomy (collClass a) (collClass b) with hc | hc | hc
  · simp [hc] at h₁
  · rw [hc] at h₁ h₂
    simp only [lt_irrefl, if_false] at h₁ h₂
    rw [decide_eq_false_iff_not] at h₁ h₂
    exact le_antisymm (le_of_not_lt h₂) (le_of_not_lt h₁)
  · simp [hc] at h₂

/-- The strict order `lexLt` is asymmetric. -/
theorem lexLt_asymm : ∀ {a b : List Char}, lexLt a b = true → lexLt b a = false
  | [], [], h => by simp [lexLt] at h
  | [], _ :: _, _ => by simp [lexLt]
  | _ :: _, [], h => by simp [lexLt] at h
  | a :: as, b :: bs, h => by
    simp only [lexLt] at h ⊢
    cases h1 : collLt a b with
    | true => simp [collLt_asymm h1, h1]
    | false =>
      cases h2 : collLt b a with
      | true => simp [h1, h2] at h
      | false =>
        simp only [h1, h2, Bool.false_eq_true, if_false] at h ⊢
        exact lexLt_asymm h

/-- The strict order `lexLt` is transitive. -/
theorem lexLt_trans :
    ∀ {a b c : List Char}, lexLt a b = true → lexLt b c = true → lexLt a c = true
  | [], _, _ :: _, _, _ => by simp [lexLt]
  | [], _ :: _, [], _, h₂ => by simp [lexLt] at h₂
  | [], [], [], h₁, _ => by simp [lexLt] at h₁
  | _ :: _, [], _, h₁, _ => by simp [lexLt] at h₁
  | _ :: _, _ :: _, [], _, h₂ => by simp [lexLt] at h₂
  | a :: as, b :: bs, c :: cs, h₁, h₂ => by
    simp only [lexLt] at h₁ h₂ ⊢
    cases hab1 : collLt a b with
    | true =>
      cases hbc1 : collLt b c with
      | true => simp [collLt_trans hab1 hbc1]
      | false =>
        cases hbc2 : collLt c b with
        | true => simp [hbc1, hbc2] at h₂
        | false =>
          have hbc := eq_of_collLt_false hbc1 hbc2
          subst hbc
          simp [hab1]
    | false =>
      cases hab2 : collLt b a with
      | true => simp [hab1, hab2] at h₁
      | false =>
        have hab := eq_of_collLt_false hab1 hab2
        subst hab
        simp only [hab1, Bool.false_eq_true, if_false] at h₁
        cases hac1 : collLt a c with
        | true => simp [hac1]
        | false =>
          cases hac2 : collLt c a with
          | true => simp [hac1, hac2] at h₂
          | false =>
            simp only [hac1, hac2, Bool.false_eq_true, if_false] at h₂ ⊢
            exact lexLt_trans h₁ h₂

/-- Two lists that are not strictly ordered either way are equal. -/
theorem eq_of_lexLt_false :
    ∀ {a b : List Char}, lexLt a b = false → lexLt b a = false → a = b
  | [], [], _, _ => rfl
  | [], _ :: _, h₁, _ => by simp [lexLt] at h₁
  | _ :: _, [], _, h₂ => by simp [lexLt] at h₂
  | a :: as, b :: bs, h₁, h₂ => by
    simp only [lexLt] at h₁ h₂
    cases hab1 : collLt a b with
    | true => simp [hab1] at h₁
    | false =>
      cases hab2 : collLt b a with
      | true => simp [hab2] at h₂
      | false =>
        have hab := eq_of_collLt_false hab1 hab2
        subst hab
        simp only [hab1, Bool.false_eq_true, if_false] at h₁ h₂
        exact congrArg (a :: ·) (eq_of_lexLt_false h₁ h₂)

instance : IsTotal ItineraryItem timeLE :=
  ⟨fun a b => by
    unfold timeLE
    cases h : lexLt (timeKey b) (timeKey a)
    · exact Or.inl rfl
    · exact Or.inr (lexLt_asymm h)⟩

instance : IsTrans ItineraryItem timeLE :=
  ⟨fun a b c hab hbc => by
    unfold timeLE at hab hbc ⊢
    cases hca : lexLt (timeKey c) (timeKey a)
    · rfl
    · exfalso
      cases hbc2 : lexLt (timeKey b) (timeKey c)
      · have : timeKey b = timeKey c := eq_of_lexLt_false hbc2 hbc
        rw [this] at hab
        rw [hab] at hca
        exact Bool.noConfusion hca
      · have := lexLt_trans hbc2 hca
        rw [hab] at this
        exact Bool.noConfusion this⟩

/-- The strict order `lexLt` is irreflexive. -/
theorem lexLt_irrefl : ∀ a : List Char, lexLt a a = false
  | [] => rfl
  | c :: cs => by simp [lexLt, collLt_irrefl, lexLt_irrefl cs]

/-- The output of `sortByTime` is sorted for the comparator order. -/
theorem sortByTime_sorted (l : List ItineraryItem) :
    List.Sorted timeLE (sortByTime l) :=
  List.sorted_insertionSort timeLE l

/-- The output of `sortByTime` is a permutation of its input. -/
theorem sortByTime_perm (l : List ItineraryItem) : List.Perm (sortByTime l) l :=
  List.perm_insertionSort timeLE l

/-- Sorting an already time-sorted list leaves it unchanged. -/
theorem sortByTime_idem (l : List ItineraryItem) :
    sortByTime (sortByTime l) = sortByTime l :=
  (sortByTime_sorted l).insertionSort_eq

/-- Inserting `x` by the stable rule and then filtering to one key class
gives the same list as filtering `x :: m` to that class: `x` lands before
every entry of its own key class and the surrounding entries keep their
order. -/
theorem filter_orderedInsert (x : ItineraryItem) (k : List Char) :
    ∀ m : List ItineraryItem,
      (List.orderedInsert timeLE x m).filter (fun it => timeKey it == k) =
        (x :: m).filter (fun it => timeKey it == k)
  | [] => rfl
  | y :: ys => by
    rw [List.orderedInsert]
    by_cases h : timeLE x y
    · rw [if_pos h]
    · rw [if_neg h]
      have IH := filter_orderedInsert x k ys
      by_cases hx : (timeKey x == k) = true
      · have hy : (timeKey y == k) = false := by
          rw [Bool.eq_false_iff]
          intro hy
          apply h
          have hkey : timeKey x = timeKey y := by
            rw [eq_of_beq hx, eq_of_beq hy]
          unfold timeLE
          rw [hkey]
          exact lexLt_irrefl _
        simp [List.filter_cons, hx, hy, IH]
      · have hx' : (timeKey x == k) = false := by
          exact Bool.eq_false_iff.mpr (fun hc => hx hc)
        simp [List.filter_cons, hx', IH]

/-- Stability of `sortByTime`: within each key class (equal trimmed times,
or all-blank times) the sorted output lists the items in their original
relative order. -/
theorem sortByTime_filter_eq (k : List Char) :
    ∀ l : List ItineraryItem,
      (sortByTime l).filter (fun it => timeKey it == k) =
        l.filter (fun it => timeKey it == k)
  | [] => rfl
  | x :: xs => by
    have IH := sortByTime_filter_eq k xs
    show (List.orderedInsert timeLE x (sortByTime xs)).filter _ = _
    rw [filter_orderedInsert]
    simp [List.filter_cons, IH]

/-- A digit character collates into the digit class. -/
theorem collClass_digit {c : Char} (h : c.isDigit = true) : collClass c = 2 := by
  simp [collClass, h]

/-- An hour digit bounded by `2` collates strictly below the sentinel
digit `9`: both are digits, compared by code point within the class. -/
theorem collLt_digit_nine {c : Char} (hd : c.isDigit = true) (hlt : c < '9') :
    collLt c '9' = true := by
  unfold collLt
  rw [collClass_digit hd, show collClass '9' = 2 from by decide]
  simp [hlt]

/-- A well-formed `HH:MM` time collates strictly below the blank-time
sentinel `"99:99"`: the comparison is decided at the first character,
a digit below `9` against `9`. -/
theorem lexLt_sentinel_of_wellFormed :
    ∀ {cs : List Char}, wellFormedHHMM cs = true →
      lexLt cs ['9', '9', ':', '9', '9'] = true
  | [h1, h2, c, m1, m2], h => by
    have hparts : h1.isDigit = true ∧ (h1 < '2' ∨ (h1 = '2' ∧ h2 ≤ '3')) := by
      simp only [wellFormedHHMM, Bool.and_eq_true, Bool.or_eq_true,
        decide_eq_true_eq, beq_iff_eq] at h
      exact ⟨h.1.1.1.1.1.2, h.1.2⟩
    have h19 : h1 < '9' := by
      rcases hparts.2 with h2' | ⟨he, _⟩
      · exact lt_trans h2' (by decide)
      · rw [he]; decide
    simp [lexLt, collLt_digit_nine hparts.1 h19]
  | [], h => by simp [wellFormedHHMM] at h
  | [_], h => by simp [wellFormedHHMM] at h
  | [_, _], h => by simp [wellFormedHHMM] at h
  | [_, _, _], h => by simp [wellFormedHHMM] at h
  | [_, _, _, _], h => by simp [wellFormedHHMM] at h
  | _ :: _ :: _ :: _ :: _ :: _ :: _, h => by simp [wellFormedHHMM] at h

/-- Decoding inverts encoding on items. -/
theorem decodeItem_encodeItem (it : ItineraryItem) :
    decodeItem (encodeItem it) = some it :=
  rfl

/-- Decoding inverts encoding on item lists. -/
theorem decodeList_encodeItem (l : List ItineraryItem) :
    decodeList decodeItem (l.map encodeItem) = some l := by
  induction l with
  | nil => rfl
  | cons x xs ih =>
    simp [decodeList, decodeItem_encodeItem, ih]

/-- Decoding inverts encoding on days. -/
theorem decodeDay_encodeDay (d : DayPlan) : decodeDay (encodeDay d) = some d := by
  have h := decodeList_encodeItem d.items
  simp [decodeDay, encodeDay, getField, asStr, asArr, h, List.lookup]

/-- Decoding inverts encoding on day lists. -/
theorem decodeList_encodeDay (l : List DayPlan) :
    decodeList decodeDay (l.map encodeDay) = some l := by
  induction l with
  | nil => rfl
  | cons x xs ih =>
    simp [decodeList, decodeDay_encodeDay, ih]

/-- Decoding inverts encoding on whole trips: the stored document loses no
information. -/
theorem decodeTrip_encodeTrip (t : Trip) : decodeTrip (encodeTrip t) = some t := by
  have h := decodeList_encodeDay t.days
  simp [decodeTrip, encodeTrip, getField, asStr, asNum, asArr, h, List.lookup]

/-- On an encoded trip the `days`-length guard tests exactly day-list
non-emptiness. -/
theorem daysLengthTruthy_encodeTrip (S : Trip) :
    daysLengthTruthy (encodeTrip S) = decide (S.days.length ≠ 0) := by
  simp [daysLengthTruthy, encodeTrip, getField, List.lookup]

/-- When the ids of `l` are pairwise distinct, searching for the id of the
last element finds exactly the last position. -/
theorem findIdx?_last_of_nodup :
    ∀ (l : List ItineraryItem) (a : ItineraryItem) (i : Nat),
      (l.map ItineraryItem.id).Nodup → l.getLast? = some a →
      List.findIdx? (fun x => x.id == a.id) l i = some (i + l.length - 1)
  | [], _, _, _, hl => by simp at hl
  | [x], a, i, _, hl => by
    have hxa : x = a := by simpa using hl
    subst hxa
    simp [List.findIdx?_cons]
  | x :: y :: ys, a, i, hn, hl => by
    have hl2 : (y :: ys).getLast? = some a := by
      rwa [List.getLast?_cons_cons] at hl
    have hmem : a ∈ y :: ys := List.mem_of_mem_getLast? hl2
    have hx : (x.id == a.id) = false := by
      rw [beq_eq_false_iff_ne]
      intro he
      simp only [List.map_cons, List.nodup_cons] at hn
      exact hn.1 (he ▸ List.mem_map_of_mem ItineraryItem.id hmem)
    have hn2 : ((y :: ys).map ItineraryItem.id).Nodup := by
      simp only [List.map_cons, List.nodup_cons] at hn ⊢
      exact ⟨hn.2.1, hn.2.2⟩
    rw [List.findIdx?_cons, hx]
    simp only [Bool.false_eq_true, if_false]
    rw [findIdx?_last_of_nodup (y :: ys) a (i + 1) hn2 hl2]
    congr 1
    simp only [List.length_cons]
    omega

/-- C1, counterexample: for the boundary state whose day list is empty,
saving and then loading does not restore it — the load guard
`parsed?.days?.length` is falsy on an empty day list, so the seeded
default state survives and the load result differs from the saved trip. -/
theorem c1_roundTrip_cex :
    loadStep (saveTrip tripNoDays) defaultState = LoadResult.state defaultState ∧
      defaultState.trip ≠ tripNoDays := by
  exact ⟨rfl, by decide⟩

/-- C1, amended: for every trip state whose day list is non-empty —
including days that contain zero items — saving through the persistence
gateway and then loading yields exactly that trip state (the `updatedAt`
timestamp round-trips unchanged as well). -/
theorem c1_roundTrip (S : Trip) (st : AppState) (h : S.days ≠ []) :
    loadStep (saveTrip S) st =
      LoadResult.state { trip := S
                         activeDayId := ((S.days.head?).map DayPlan.id).getD "" } := by
  have hg : daysLengthTruthy (encodeTrip S) = true := by
    rw [daysLengthTruthy_encodeTrip]
    simpa [List.length_eq_zero] using h
  simp [loadStep, saveTrip, hg, decodeTrip_encodeTrip]

/-- C1, witness: the seeded default trip (whose third day holds zero
items) round-trips through save and load. -/
theorem c1_roundTrip_witness :
    defaultTrip.days ≠ [] ∧
      loadStep (saveTrip defaultTrip) defaultState =
        LoadResult.state
          { trip := defaultTrip
            activeDayId := ((defaultTrip.days.head?).map DayPlan.id).getD "" } :=
  ⟨by decide, c1_roundTrip defaultTrip defaultState (by decide)⟩

/-- C2, code evaluated at the failing input: moving the later of two
distinctly-timed items up stores the swapped arrangement verbatim in the
day record, but re-reading the day's items through `activeItems` (the
list the page renders) re-sorts by time and returns the original
time-sorted arrangement — the swap is not visible on re-read, contrary to
the claim and to the code's own comment `keep as swapped order (not
re-sorted)`. -/
theorem c2_swap_reread_resorted :
    (moveItem "i2" Dir.up 7 stFixture).map
        (fun st => ((activeDay st).map DayPlan.items).getD []) =
      some [itLate, itEarly] ∧
    (moveItem "i2" Dir.up 7 stFixture).map activeItems =
      some [itEarly, itLate] ∧
    activeItems stFixture = [itEarly, itLate] := by
  exact ⟨by decide, by decide, by decide⟩

/-- C3, counterexample: a present but letter-bearing time such as `"noon"`
collates after the blank-time sentinel `"99:99"` (letters collate after
digits in the default collation), so a blank-time item is placed strictly
before a present-time item in the ordering engine's output. -/
theorem c3_blank_after_timed_cex :
    ¬ blankAfterTimed (sortByTime [itBlankTime, itWordTime]) := by
  decide

/-- C3, amended: restricted to collections whose present (non-blank)
trimmed times are well-formed zero-padded `HH:MM`, every blank-time item
is placed strictly after every present-time item in the output of
`sortByTime`. -/
theorem c3_blank_after_timed (l : List ItineraryItem) (h : mixedWellFormed l) :
    blankAfterTimed (sortByTime l) := by
  intro i j hi hj
  by_contra hij
  push_neg at hij
  have hne : (j : Nat) ≠ (i : Nat) := by
    intro he
    have hget : ((sortByTime l).get j) = ((sortByTime l).get i) := by
      congr 1
      exact Fin.ext he
    rw [hget] at hj
    exact hi hj
  have hji : (j : Nat) < (i : Nat) := lt_of_le_of_ne hij hne
  have hrel : timeLE ((sortByTime l).get j) ((sortByTime l).get i) :=
    (sortByTime_sorted l).rel_get_of_lt hji
  have hkx : timeKey ((sortByTime l).get i) =
      jsTrimChars ((sortByTime l).get i).time.data := by
    unfold timeKey
    rw [if_neg hi]
  have hky : timeKey ((sortByTime l).get j) = ['9', '9', ':', '9', '9'] := by
    unfold timeKey
    rw [if_pos hj]
  have hxmem : (sortByTime l).get i ∈ l :=
    (sortByTime_perm l).mem_iff.mp (List.get_mem _ _ _)
  have hwf : wellFormedHHMM (jsTrimChars ((sortByTime l).get i).time.data) = true := by
    rcases h _ hxmem with hw | hb
    · exact hw
    · exact absurd hb hi
  have hlt : lexLt (timeKey ((sortByTime l).get i))
      (timeKey ((sortByTime l).get j)) = true := by
    rw [hkx, hky]
    exact lexLt_sentinel_of_wellFormed hwf
  unfold timeLE at hrel
  rw [hrel] at hlt
  exact Bool.noConfusion hlt

/-- C3, witness: a blank-time item inserted before a well-formed-time item
is placed after it by the sort. -/
theorem c3_blank_after_timed_witness :
    mixedWellFormed [itBlankTime, itEarly] ∧
      blankAfterTimed (sortByTime [itBlankTime, itEarly]) :=
  ⟨by decide, c3_blank_after_timed _ (by decide)⟩

/-- C4: for every collection mixing well-formed `HH:MM` and blank times,
sorting twice yields the same sequence as sorting once, and each key
class (items with equal trimmed times, or the blank-time items among
themselves) appears in the output in its original relative order. -/
theorem c4_stable_idempotent (l : List ItineraryItem) (h : mixedWellFormed l) :
    sortByTime (sortByTime l) = sortByTime l ∧
      ∀ k : List Char,
        (sortByTime l).filter (fun it => timeKey it == k) =
          l.filter (fun it => timeKey it == k) :=
  ⟨sortByTime_idem l, fun k => sortByTime_filter_eq k l⟩

/-- C4, witness: a concrete mixed collection, with the `09:30` key class
evaluated explicitly. -/
theorem c4_stable_idempotent_witness :
    mixedWellFormed [itLate, itEarly, itBlankTime] ∧
      sortByTime (sortByTime [itLate, itEarly, itBlankTime]) =
        sortByTime [itLate, itEarly, itBlankTime] ∧
      (sortByTime [itLate, itEarly, itBlankTime]).filter
          (fun it => timeKey it == ['0', '9', ':', '3', '0']) =
        [itLate, itEarly, itBlankTime].filter
          (fun it => timeKey it == ['0', '9', ':', '3', '0']) :=
  ⟨by decide, (c4_stable_idempotent _ (by decide)).1,
    (c4_stable_idempotent _ (by decide)).2 _⟩

/-- C5, counterexample: parsed JSON junk whose `days` is a non-empty array
of non-item values is not valid structured trip data, yet it passes the
only guard the load performs (`parsed?.days?.length`) and is adopted into
the component state — the in-memory state does not remain the seeded
default, refuting the claim as stated. -/
theorem c5_corrupt_treated_absent_cex :
    decodeTrip junkDays = none ∧
      daysLengthTruthy junkDays = true ∧
      loadStep (RawStored.json junkDays) defaultState ≠
        LoadResult.state defaultState := by
  refine ⟨rfl, rfl, ?_⟩
  intro hcontra
  exact LoadResult.noConfusion hcontra

/-- C5, amended: a stored value on which `JSON.parse` throws, or whose
parsed tree fails the `parsed?.days?.length` guard, is treated as absent:
the state — in particular the seeded default — is unchanged, and the
total `loadStep` raises nothing.  That guard is the only validation the
load performs; a parsed tree that passes it is adopted even when it is
not valid trip data (the counterexample above). -/
theorem c5_corrupt_treated_absent (raw : RawStored) (st : AppState)
    (h : raw = RawStored.unparseable ∨
      ∃ j, raw = RawStored.json j ∧ daysLengthTruthy j = false) :
    loadStep raw st = LoadResult.state st := by
  rcases h with h | ⟨j, hj, hguard⟩
  · subst h
    rfl
  · subst hj
    simp [loadStep, hguard]

/-- C5, witness: a stored JSON string that is not a trip object fails the
guard and leaves the default state untouched. -/
theorem c5_corrupt_treated_absent_witness :
    daysLengthTruthy (Json.str "not trip data") = false ∧
      loadStep (RawStored.json (Json.str "not trip data")) defaultState =
        LoadResult.state defaultState :=
  ⟨rfl, c5_corrupt_treated_absent _ _ (Or.inr ⟨_, rfl, rfl⟩)⟩

/-- C6: calling `addItem` with a title that trims to empty returns the
state unchanged wrapped in `some` — the active day's item list and the
trip's `updatedAt` are untouched and no exception surfaces (`none` is the
model of a thrown exception). -/
theorem c6_blank_title_rejected (newId : String) (now : Nat) (f : Form)
    (st : AppState) (h : jsTrim f.fTitle = "") :
    addItem newId now f st = some st := by
  simp [addItem, h]

/-- C6, witness: the whitespace-only title form is rejected without any
state change on the fixture state. -/
theorem c6_blank_title_rejected_witness :
    jsTrim formBlankTitle.fTitle = "" ∧
      addItem "i9" 5 formBlankTitle stFixture = some stFixture :=
  ⟨by decide, c6_blank_title_rejected "i9" 5 formBlankTitle stFixture (by decide)⟩

/-- C7, counterexample: the exported document of the seeded default trip
carries no `exportedAt` field — `exportJson` stringifies the trip alone. -/
theorem c7_exportedAt_missing_cex :
    getField (exportDoc defaultTrip) "exportedAt" = none := rfl

/-- C7, amended: the export operation produces a document containing the
full current trip state (it decodes back to exactly the current trip),
but no `exportedAt` timestamp field is added. -/
theorem c7_export_full_state (t : Trip) :
    decodeTrip (exportDoc t) = some t ∧
      getField (exportDoc t) "exportedAt" = none :=
  ⟨decodeTrip_encodeTrip t, rfl⟩

/-- C8: every mutating operation on the trip aggregate — renaming the
trip, editing the date range, adding a day, adding an item (with a
non-blank title), deleting an item, moving an item, and resetting —
writes the fresh `Date.now()` value (`now`) into the trip's `updatedAt`. -/
theorem c8_mutations_refresh_updatedAt (now : Nat) :
    (∀ s st, (renameTrip s now st).trip.updatedAt = now) ∧
    (∀ s st, (setDateRange s now st).trip.updatedAt = now) ∧
    (∀ s st, (addDay s now st).trip.updatedAt = now) ∧
    (∀ newId f st st', addItem newId now f st = some st' →
      jsTrim f.fTitle ≠ "" → st'.trip.updatedAt = now) ∧
    (∀ itemId st st', deleteItem itemId now st = some st' →
      st'.trip.updatedAt = now) ∧
    (∀ itemId dir st st', moveItem itemId dir now st = some st' →
      st'.trip.updatedAt = now) ∧
    (∀ s, (resetAll s now).trip.updatedAt = now) := by
  refine ⟨fun s st => rfl, fun s st => rfl, fun s st => rfl, ?_, ?_, ?_,
    fun s => rfl⟩
  · intro newId f st st' hEq hTitle
    simp only [addItem] at hEq
    rw [if_neg hTitle] at hEq
    cases hAd : activeDay st with
    | none =>
      rw [hAd] at hEq
      exact Option.noConfusion hEq
    | some ad =>
      rw [hAd] at hEq
      have hst := Option.some.inj hEq
      rw [← hst]
      rfl
  · intro itemId st st' hEq
    simp only [deleteItem] at hEq
    cases hAd : activeDay st with
    | none =>
      rw [hAd] at hEq
      exact Option.noConfusion hEq
    | some ad =>
      rw [hAd] at hEq
      have hst := Option.some.inj hEq
      rw [← hst]
      rfl
  · intro itemId dir st st' hEq
    simp only [moveItem] at hEq
    cases hAd : activeDay st with
    | none =>
      rw [hAd] at hEq
      exact Option.noConfusion hEq
    | some ad =>
      rw [hAd] at hEq
      have hst := Option.some.inj hEq
      rw [← hst]
      rfl

/-- C8, witness: each of the seven mutations, applied to a concrete state
at time `5`, leaves `updatedAt = 5`. -/
theorem c8_mutations_refresh_updatedAt_witness :
    (renameTrip "x" 5 defaultState).trip.updatedAt = 5 ∧
    (setDateRange "x" 5 defaultState).trip.updatedAt = 5 ∧
    (addDay "d9" 5 defaultState).trip.updatedAt = 5 ∧
    stAdded.trip.updatedAt = 5 ∧
    stDeleted.trip.updatedAt = 5 ∧
    stMoved.trip.updatedAt = 5 ∧
    (resetAll "t9" 5).trip.updatedAt = 5 :=
  ⟨(c8_mutations_refresh_updatedAt 5).1 "x" defaultState,
    (c8_mutations_refresh_updatedAt 5).2.1 "x" defaultState,
    (c8_mutations_refresh_updatedAt 5).2.2.1 "d9" defaultState,
    (c8_mutations_refresh_updatedAt 5).2.2.2.1 "i9" formAdd stFixture stAdded
      (by decide) (by decide),
    (c8_mutations_refresh_updatedAt 5).2.2.2.2.1 "i1" stFixture stDeleted
      (by decide),
    (c8_mutations_refresh_updatedAt 5).2.2.2.2.2.1 "i2" Dir.up stFixture stMoved
      (by decide),
    (c8_mutations_refresh_updatedAt 5).2.2.2.2.2.2 "t9"⟩

/-- C9: deleting by identifier removes exactly the items carrying that
identifier — the result is a sublist of the original (so the surviving
items keep their original relative order), items with the identifier have
count zero, and every other item keeps its exact multiplicity. -/
theorem c9_delete_exact (d : DayPlan) (itemId : String) :
    List.Sublist (deleteItemDay itemId d).items d.items ∧
      ∀ x : ItineraryItem, (deleteItemDay itemId d).items.count x =
        if x.id = itemId then 0 else d.items.count x := by
  constructor
  · exact List.filter_sublist _
  · intro x
    by_cases hx : x.id = itemId
    · rw [if_pos hx]
      rw [List.count_eq_zero]
      intro hmem
      simp only [deleteItemDay] at hmem
      rw [List.mem_filter] at hmem
      exact absurd hx (by simpa using hmem.2)
    · rw [if_neg hx]
      exact List.count_filter (by simpa using hx)

/-- C10: the move operation is a no-op for an identifier that occurs in
none of the day's items, for moving the head of the time-derived ordering
up, and — when the day's item identifiers are pairwise distinct — for
moving the last entry of the ordering down. -/
theorem c10_move_noop (d : DayPlan) (itemId : String) :
    (∀ dir : Dir, itemId ∉ d.items.map ItineraryItem.id →
      moveItemDay itemId dir d = d) ∧
    (∀ a rest, sortByTime d.items = a :: rest →
      moveItemDay a.id Dir.up d = d) ∧
    ((d.items.map ItineraryItem.id).Nodup →
      ∀ a, (sortByTime d.items).getLast? = some a →
        moveItemDay a.id Dir.down d = d) := by
  refine ⟨?_, ?_, ?_⟩
  · intro dir hnotin
    have hnone : (sortByTime d.items).findIdx? (fun x => x.id == itemId) = none := by
      rw [List.findIdx?_eq_none_iff]
      intro x hx
      rw [beq_eq_false_iff_ne]
      intro he
      refine hnotin ?_
      refine he ▸ List.mem_map_of_mem ItineraryItem.id ?_
      exact (sortByTime_perm d.items).mem_iff.mp hx
    simp only [moveItemDay, hnone]
  · intro a rest hsort
    have hfind : List.findIdx? (fun x => x.id == a.id) (a :: rest) 0 = some 0 := by
      rw [List.findIdx?_cons]
      simp
    simp only [moveItemDay, hsort, hfind]
    split
    · rfl
    · rename_i hguard
      exact absurd (Or.inl (by norm_num)) hguard
  · intro hn a ha
    have hnodup : ((sortByTime d.items).map ItineraryItem.id).Nodup :=
      (List.Perm.nodup_iff ((sortByTime_perm d.items).map ItineraryItem.id)).mpr hn
    have hfind := findIdx?_last_of_nodup (sortByTime d.items) a 0 hnodup ha
    simp only [Nat.zero_add] at hfind
    simp only [moveItemDay, hfind]
    split
    · rfl
    · rename_i hguard
      exact absurd (Or.inr (by omega)) hguard

/-- C10, witness: on the two-item fixture day, an unknown identifier, the
first entry moved up, and the last entry moved down all leave the day
unchanged. -/
theorem c10_move_noop_witness :
    ("zz" ∉ dayFixture.items.map ItineraryItem.id) ∧
    sortByTime dayFixture.items = [itEarly, itLate] ∧
    (dayFixture.items.map ItineraryItem.id).Nodup ∧
    (sortByTime dayFixture.items).getLast? = some itLate ∧
    moveItemDay "zz" Dir.up dayFixture = dayFixture ∧
    moveItemDay itEarly.id Dir.up dayFixture = dayFixture ∧
    moveItemDay itLate.id Dir.down dayFixture = dayFixture :=
  ⟨by decide, by decide, by decide, by decide,
    (c10_move_noop dayFixture "zz").1 Dir.up (by decide),
    (c10_move_noop dayFixture "zz").2.1 itEarly [itLate] (by decide),
    (c10_move_noop dayFixture "zz").2.2 (by decide) itLate (by decide)⟩

end FamilyTrip
